import Mathlib

/-!
# Verification of `analyze_coverage.py`

A shallow embedding of the LCOV coverage summarizer in
`src/analyze_coverage.py`, together with theorems settling the spec's
claims about it.

Modelling conventions:

* An input line is a `List Char` (`Line`); Python's `str.strip()` is
  `pyStrip` (ASCII whitespace set).
* The coverage dictionary is an association list `CoverageTable`
  (insertion-ordered, unique keys by construction, matching a Python
  `dict`); `tableGet?`, `tableInit`, `tableUpdate` mirror `k in d`,
  `d.setdefault`-style insertion at line 21-22 and `d[k] += ...`.
* `int(s)` is `pyInt?` (Python `int` over a decimal string literal:
  surrounding whitespace, optional sign, digits with single interior
  underscores); `none` models the `ValueError` raise.
* `os.path.isabs` is the POSIX `isabs` (leading `/`); `os.path.relpath`
  together with the ambient working directory is abstracted as an oracle
  parameter `relpath : String → Option String`, where `none` models the
  `ValueError` the source catches at lines 17-20.  Every theorem is
  stated for all such oracles.
* Opening the input file is abstracted by `OpenResult`; the uncaught
  non-`FileNotFoundError` open failure and the uncaught `ValueError`
  terminate a CPython process with a traceback on stderr that names the
  offending value and exit status 1, which `mainRun` reflects.
-/

abbrev Line := List Char

/-- The characters removed by Python's `str.strip()` (ASCII subset;
the input format is ASCII line-oriented text). -/
def isPyWhitespace (c : Char) : Bool :=
  c = ' ' || c = '\t' || c = '\n' || c = '\x0d' || c = '\x0b' || c = '\x0c'

/-- `line.strip()` at line 12 of the source: drop leading and trailing
whitespace. -/
def pyStrip (l : Line) : Line :=
  ((l.dropWhile isPyWhitespace).reverse.dropWhile isPyWhitespace).reverse

/-- `line.startswith('SF:')` (line 13). -/
def sfP : Line → Bool
  | 'S' :: 'F' :: ':' :: _ => true
  | _ => false

/-- `line.startswith('DA:')` (line 23). -/
def daP : Line → Bool
  | 'D' :: 'A' :: ':' :: _ => true
  | _ => false

/-- Python `s.split(',')` (line 24): split at every comma, keeping empty
pieces, producing one more piece than there are commas. -/
def splitComma : Line → List Line
  | [] => [[]]
  | c :: rest =>
    match splitComma rest with
    | [] => [[]]
    | p :: ps => if c = ',' then [] :: p :: ps else (c :: p) :: ps

/-- Digit tail of a Python decimal integer literal: digits with single
interior underscores. -/
def pyDigitsTail : List Char → Bool
  | [] => true
  | '_' :: c :: rest => c.isDigit && pyDigitsTail rest
  | '_' :: [] => false
  | c :: rest => c.isDigit && pyDigitsTail rest

/-- A nonempty run of digits, underscores allowed between digits. -/
def pyDigits : List Char → Bool
  | [] => false
  | c :: rest => c.isDigit && pyDigitsTail rest

/-- Numeric value of a digit run, ignoring underscores. -/
def digitsVal (l : List Char) : Nat :=
  (l.filter (· ≠ '_')).foldl (fun n c => 10 * n + (c.toNat - '0'.toNat)) 0

/-- Python `int(s)` on a string (line 26): strip whitespace, optional
sign, then a valid digit run; `none` models the `ValueError` raised on
anything else. -/
def pyInt? (l : Line) : Option Int :=
  match pyStrip l with
  | '+' :: rest => if pyDigits rest then some (digitsVal rest) else none
  | '-' :: rest => if pyDigits rest then some (-(digitsVal rest : Int)) else none
  | s => if pyDigits s then some (digitsVal s) else none

/-- The per-file record `{'total': ..., 'covered': ...}` (line 22). -/
structure CovStats where
  total : Nat
  covered : Nat
deriving DecidableEq, Repr

/-- Componentwise sum of two records. -/
def addStats (a b : CovStats) : CovStats :=
  ⟨a.total + b.total, a.covered + b.covered⟩

/-- The `coverage` dictionary: an insertion-ordered association list. -/
abbrev CoverageTable := List (String × CovStats)

/-- `k in coverage` (line 21). -/
def tableMem (t : CoverageTable) (k : String) : Bool :=
  t.any (fun e => e.1 = k)

/-- `coverage[k]` as a lookup (first matching key). -/
def tableGet? : CoverageTable → String → Option CovStats
  | [], _ => none
  | (k', v) :: rest, k => if k' = k then some v else tableGet? rest k

/-- Lines 21-22: `if current_file not in coverage: coverage[current_file]
= {'total': 0, 'covered': 0}` — insert a fresh zero record if absent. -/
def tableInit (t : CoverageTable) (k : String) : CoverageTable :=
  if tableMem t k then t else t ++ [(k, ⟨0, 0⟩)]

/-- In-place update of the record at `k` (lines 27-29).  In Python a
missing key would be a `KeyError`; in every state reachable from the
empty table the current file's key is present (see `curOK` below), so
the no-op behaviour on an absent key is never exercised. -/
def tableUpdate : CoverageTable → String → (CovStats → CovStats) → CoverageTable
  | [], _, _ => []
  | (k', v) :: rest, k, f =>
    if k' = k then (k', f v) :: rest else (k', v) :: tableUpdate rest k f

/-- POSIX `os.path.isabs` (line 15): the path starts with `/`. -/
def isabs (p : String) : Bool :=
  match p.data with
  | '/' :: _ => true
  | _ => false

/-- Lines 15-20: absolute paths are converted by `os.path.relpath` when
possible; a `ValueError` (`relpath p = none`) silently keeps the
original path; relative paths are untouched. -/
def normalizeSF (relpath : String → Option String) (p : String) : String :=
  if isabs p then
    match relpath p with
    | some r => r
    | none => p
  else p

/-- The parsing loop's state: the table under construction and
`current_file` (`none` = Python `None`). -/
structure ParseState where
  coverage : CoverageTable
  current : Option String
deriving DecidableEq

/-- Python truthiness of `current_file` at line 23: `None` and the empty
string are falsy. -/
def truthy : Option String → Bool
  | none => false
  | some s => decide (s ≠ "")

/-- The one exception the loop body can raise: `ValueError` from
`int(parts[1])` at line 26. -/
inductive PyError where
  | valueError
deriving DecidableEq, Repr

/-- The body of the `for line in f` loop (lines 11-29) on one raw input
line. -/
def lineStep (relpath : String → Option String) (st : ParseState) (raw : Line) :
    Except PyError ParseState :=
  let line := pyStrip raw
  if sfP line then
    let cf := normalizeSF relpath ⟨line.drop 3⟩
    .ok ⟨tableInit st.coverage cf, some cf⟩
  else if daP line && truthy st.current then
    match st.current with
    | none => .ok st
    | some cf =>
      match splitComma (line.drop 3) with
      | _ :: p1 :: _ =>
        match pyInt? p1 with
        | none => .error .valueError
        | some count =>
          .ok ⟨tableUpdate st.coverage cf
                 (fun r => ⟨r.total + 1,
                            if 0 < count then r.covered + 1 else r.covered⟩),
               st.current⟩
      | _ => .ok st
  else .ok st

/-- The whole `for` loop: fold `lineStep` over the input lines,
propagating the first exception. -/
def parseFold (relpath : String → Option String) :
    List Line → ParseState → Except PyError ParseState
  | [], st => .ok st
  | l :: ls, st =>
    match lineStep relpath st l with
    | .ok st' => parseFold relpath ls st'
    | .error e => .error e

/-- `parse_lcov` restricted to its loop: parse a list of lines starting
from the empty table and no current file. -/
def parseLines (relpath : String → Option String) (lines : List Line) :
    Except PyError CoverageTable :=
  match parseFold relpath lines ⟨[], none⟩ with
  | .ok st => .ok st.coverage
  | .error e => .error e

/-- Outcome of `open(file_path, 'r')`: the file's lines, a
`FileNotFoundError`, or some other `OSError` (e.g. `PermissionError`
for an unreadable file). -/
inductive OpenResult where
  | opened (lines : List Line)
  | notFound
  | accessError
deriving DecidableEq

/-- Result of the `parse_lcov` function (lines 5-34): a table, the
explicit `sys.exit(1)` with its message (lines 30-32), or an exception
that propagates out of the function uncaught. -/
inductive PLResult where
  | ok (t : CoverageTable)
  | exitOne (msg : String)
  | raised (msg : String)
deriving DecidableEq

/-- `parse_lcov`: only `FileNotFoundError` is caught (line 30); any
other open failure, and a `ValueError` from a data line, propagate.
The uncaught-exception messages reproduce what CPython prints in the
traceback (both name the offending path / literal). -/
def parse_lcov (relpath : String → Option String) (file_path : String)
    (r : OpenResult) : PLResult :=
  match r with
  | .opened lines =>
    match parseLines relpath lines with
    | .ok t => .ok t
    | .error .valueError => .raised "ValueError: invalid literal for int() with base 10"
  | .notFound => .exitOne ("Error: File " ++ file_path ++ " not found.")
  | .accessError =>
    .raised ("PermissionError: [Errno 13] Permission denied: '" ++ file_path ++ "'")

/-- One printed row of the report. -/
structure Row where
  file : String
  lines : Nat
  covered : Nat
  percent : Rat
deriving DecidableEq

/-- Line 49 / 57: `covered / lines * 100 if lines > 0 else 0`. -/
def percentOf (covered lines : Nat) : Rat :=
  if 0 < lines then (covered : Rat) / (lines : Rat) * 100 else 0

/-- `sorted(coverage.keys())` (line 43), under Python's lexicographic
string order. -/
def sortedKeys (t : CoverageTable) : List String :=
  (t.map Prod.fst).insertionSort (· ≤ ·)

/-- The row printed for key `k`: `coverage[file]` looked up and formatted
(lines 45-54).  The `none` branch is unreachable because the printed keys
come from the table itself. -/
def rowOf (t : CoverageTable) (k : String) : Row :=
  match tableGet? t k with
  | some s => ⟨k, s.total, s.covered, percentOf s.covered s.total⟩
  | none => ⟨k, 0, 0, 0⟩

/-- The per-file rows of the report, in printed order (lines 43-54). -/
def reportRows (t : CoverageTable) : List Row :=
  (sortedKeys t).map (rowOf t)

/-- The row an individual table entry contributes, used to state
permutation facts about the report. -/
def entryRow (e : String × CovStats) : Row :=
  ⟨e.1, e.2.total, e.2.covered, percentOf e.2.covered e.2.total⟩

/-- The final `TOTAL` row (lines 40-58): `total_lines` and
`total_covered` accumulated over the printed rows, same zero guard. -/
def totalRow (t : CoverageTable) : Row :=
  let tl := ((reportRows t).map Row.lines).sum
  let tc := ((reportRows t).map Row.covered).sum
  ⟨"TOTAL", tl, tc, percentOf tc tl⟩

/-- Outcome of running `__main__` with one CLI argument (lines 60-67):
what was printed as a report (if any) and the process exit status;
`errText` is the error channel (the `print` at line 31 or the
interpreter's traceback). -/
structure MainOutcome where
  report : Option (List Row × Row)
  errText : String
  status : Nat
deriving DecidableEq

/-- The `__main__` path for a given open outcome: a successful parse
prints the report and exits 0; `sys.exit(1)` and uncaught exceptions
both terminate the process with status 1 and no report. -/
def mainRun (relpath : String → Option String) (file_path : String)
    (r : OpenResult) : MainOutcome :=
  match parse_lcov relpath file_path r with
  | .ok t => ⟨some (reportRows t, totalRow t), "", 0⟩
  | .exitOne m => ⟨none, m, 1⟩
  | .raised m => ⟨none, m, 1⟩

/-- Reference counting function for the refinement claims: the number
of `DA:` lines the loop attributes to key `k` (total, covered), given
the running current-file context, classified exactly as `lineStep`
classifies.  Unparsable execution counts abort the real parse, so what
this function does after one is irrelevant on successful runs. -/
def specCount (relpath : String → Option String) (k : String) :
    Option String → List Line → CovStats
  | _, [] => ⟨0, 0⟩
  | cur, raw :: ls =>
    let line := pyStrip raw
    if sfP line then
      specCount relpath k (some (normalizeSF relpath ⟨line.drop 3⟩)) ls
    else if daP line && truthy cur then
      match splitComma (line.drop 3) with
      | _ :: p1 :: _ =>
        match pyInt? p1 with
        | none => specCount relpath k cur ls
        | some c =>
          let r := specCount relpath k cur ls
          if cur = some k then
            ⟨r.total + 1, r.covered + (if 0 < c then 1 else 0)⟩
          else r
      | _ => specCount relpath k cur ls
    else specCount relpath k cur ls

/-- The keys the input's `SF:` lines introduce (after normalization). -/
def sfKeys (relpath : String → Option String) (lines : List Line) : List String :=
  lines.filterMap fun raw =>
    let line := pyStrip raw
    if sfP line then some (normalizeSF relpath ⟨line.drop 3⟩) else none

/-- Well-formedness of a table: every record satisfies
`covered ≤ total`. -/
def tableWF (t : CoverageTable) : Prop :=
  ∀ e ∈ t, e.2.covered ≤ e.2.total

/-- The loop invariant tying `current_file` to the table: whenever the
current file is set, its key is present. -/
def curOK (st : ParseState) : Prop :=
  ∀ cf, st.current = some cf → (tableGet? st.coverage cf).isSome = true

/-! ## Helper lemmas: `pyStrip` -/

theorem head?_dropWhile {α : Type} (p : α → Bool) :
    ∀ (l : List α) (c : α), (l.dropWhile p).head? = some c → p c = false := by
  intro l
  induction l with
  | nil => intro c h; simp [List.dropWhile] at h
  | cons a rest ih =>
    intro c h
    rw [List.dropWhile_cons] at h
    by_cases hp : p a = true
    · exact ih c (by simpa [hp] using h)
    · rw [if_neg hp] at h
      rw [List.head?_cons, Option.some.injEq] at h
      subst h
      simpa using hp

theorem getLast?_dropWhile {α : Type} (p : α → Bool) :
    ∀ (l : List α), l.dropWhile p ≠ [] → (l.dropWhile p).getLast? = l.getLast? := by
  intro l
  induction l with
  | nil => intro h; simp [List.dropWhile] at h
  | cons a rest ih =>
    intro h
    by_cases hp : p a = true
    · rw [List.dropWhile_cons, if_pos hp] at h ⊢
      rw [ih h]
      have hrest : rest ≠ [] := by
        intro he; subst he; simp [List.dropWhile] at h
      obtain ⟨b, l', rfl⟩ := List.exists_cons_of_ne_nil hrest
      exact (List.getLast?_cons_cons).symm
    · rw [List.dropWhile_cons, if_neg hp]

theorem pyStrip_head (l : Line) (c : Char) :
    (pyStrip l).head? = some c → isPyWhitespace c = false := by
  intro h
  unfold pyStrip at h
  rw [List.head?_reverse] at h
  have hne : (l.dropWhile isPyWhitespace).reverse.dropWhile isPyWhitespace ≠ [] := by
    intro he; rw [he] at h; simp at h
  rw [getLast?_dropWhile _ _ hne, List.getLast?_reverse] at h
  exact head?_dropWhile _ _ _ h

theorem pyStrip_getLast (l : Line) (c : Char) :
    (pyStrip l).getLast? = some c → isPyWhitespace c = false := by
  intro h
  unfold pyStrip at h
  rw [List.getLast?_reverse] at h
  exact head?_dropWhile _ _ _ h

theorem dropWhile_eq_self_of_head {α : Type} (p : α → Bool) (l : List α)
    (h : ∀ c, l.head? = some c → p c = false) : l.dropWhile p = l := by
  cases l with
  | nil => simp [List.dropWhile]
  | cons a rest =>
    rw [List.dropWhile_cons, if_neg]
    simp [h a rfl]

theorem pyStrip_eq_self (l : Line)
    (h1 : ∀ c, l.head? = some c → isPyWhitespace c = false)
    (h2 : ∀ c, l.getLast? = some c → isPyWhitespace c = false) :
    pyStrip l = l := by
  unfold pyStrip
  rw [dropWhile_eq_self_of_head _ _ h1]
  rw [dropWhile_eq_self_of_head _ _ (by intro c hc; rw [List.head?_reverse] at hc; exact h2 c hc)]
  exact List.reverse_reverse l

theorem pyStrip_idem (l : Line) : pyStrip (pyStrip l) = pyStrip l :=
  pyStrip_eq_self _ (pyStrip_head l) (pyStrip_getLast l)

/-! ## Helper lemmas: the association table -/

theorem tableGet?_update_self (t : CoverageTable) (k : String) (f : CovStats → CovStats) :
    tableGet? (tableUpdate t k f) k = (tableGet? t k).map f := by
  induction t with
  | nil => simp [tableUpdate, tableGet?]
  | cons e rest ih =>
    obtain ⟨k', v⟩ := e
    by_cases h : k' = k
    · subst h; simp [tableUpdate, tableGet?]
    · simp [tableUpdate, tableGet?, h, ih]

theorem tableGet?_update_ne (t : CoverageTable) (k k' : String) (f : CovStats → CovStats)
    (h : k' ≠ k) : tableGet? (tableUpdate t k f) k' = tableGet? t k' := by
  induction t with
  | nil => simp [tableUpdate]
  | cons e rest ih =>
    obtain ⟨k₀, v⟩ := e
    by_cases h0 : k₀ = k
    · subst h0
      simp [tableUpdate, tableGet?, Ne.symm h]
    · simp [tableUpdate, tableGet?, h0, ih]

theorem tableMem_eq_isSome (t : CoverageTable) (k : String) :
    tableMem t k = (tableGet? t k).isSome := by
  induction t with
  | nil => simp [tableMem, tableGet?]
  | cons e rest ih =>
    obtain ⟨k', v⟩ := e
    by_cases h : k' = k
    · subst h; simp [tableMem, tableGet?]
    · simpa [tableMem, tableGet?, h] using ih

theorem tableGet?_append (t t' : CoverageTable) (k : String) :
    tableGet? (t ++ t') k =
      match tableGet? t k with
      | some v => some v
      | none => tableGet? t' k := by
  induction t with
  | nil => simp [tableGet?]
  | cons e rest ih =>
    obtain ⟨k', v⟩ := e
    by_cases h : k' = k
    · subst h; simp [tableGet?]
    · simp [tableGet?, h, ih]

theorem tableInit_of_mem (t : CoverageTable) (k : String)
    (h : tableMem t k = true) : tableInit t k = t := by
  simp [tableInit, h]

theorem tableGet?_init_self (t : CoverageTable) (k : String) :
    tableGet? (tableInit t k) k = some ((tableGet? t k).getD ⟨0, 0⟩) := by
  unfold tableInit
  rw [tableMem_eq_isSome]
  cases h : tableGet? t k with
  | some v => simp [h]
  | none => simp [h, tableGet?_append, tableGet?]

theorem tableGet?_init_ne (t : CoverageTable) (k k' : String) (h : k' ≠ k) :
    tableGet? (tableInit t k) k' = tableGet? t k' := by
  unfold tableInit
  by_cases hm : tableMem t k = true
  · simp [hm]
  · simp only [hm, if_false, Bool.false_eq_true]
    rw [tableGet?_append]
    cases hg : tableGet? t k' with
    | some v => simp
    | none => simp [tableGet?, Ne.symm h]

theorem keys_update (t : CoverageTable) (k : String) (f : CovStats → CovStats) :
    (tableUpdate t k f).map Prod.fst = t.map Prod.fst := by
  induction t with
  | nil => simp [tableUpdate]
  | cons e rest ih =>
    obtain ⟨k', v⟩ := e
    by_cases h : k' = k
    · subst h; simp [tableUpdate]
    · simp [tableUpdate, h, ih]

theorem tableMem_false_iff (t : CoverageTable) (k : String) :
    tableMem t k = false ↔ k ∉ t.map Prod.fst := by
  rw [tableMem_eq_isSome]
  induction t with
  | nil => simp [tableGet?]
  | cons e rest ih =>
    obtain ⟨k', v⟩ := e
    by_cases h : k' = k
    · subst h; simp [tableGet?]
    · simp [tableGet?, h, Ne.symm h, ih]

theorem keys_nodup_init (t : CoverageTable) (k : String)
    (h : (t.map Prod.fst).Nodup) : ((tableInit t k).map Prod.fst).Nodup := by
  unfold tableInit
  by_cases hm : tableMem t k = true
  · simpa [hm]
  · have hk : k ∉ t.map Prod.fst := (tableMem_false_iff t k).mp (by simpa using hm)
    simp only [hm, if_false, Bool.false_eq_true, List.map_append, List.map_cons, List.map_nil]
    rw [List.nodup_append]
    refine ⟨h, List.nodup_singleton k, ?_⟩
    intro a ha hb
    simp only [List.mem_singleton] at hb
    subst hb
    exact hk ha

theorem tableWF_update (t : CoverageTable) (k : String) (f : CovStats → CovStats)
    (hf : ∀ r, r.covered ≤ r.total → (f r).covered ≤ (f r).total)
    (h : tableWF t) : tableWF (tableUpdate t k f) := by
  induction t with
  | nil => simpa [tableUpdate] using h
  | cons e rest ih =>
    obtain ⟨k', v⟩ := e
    by_cases h0 : k' = k
    · subst h0
      intro e' he'
      simp only [tableUpdate, if_pos rfl] at he'
      rcases List.mem_cons.mp he' with he' | he'
      · subst he'; exact hf v (h ⟨k', v⟩ (List.mem_cons_self _ _))
      · exact h e' (List.mem_cons_of_mem _ he')
    · intro e' he'
      simp only [tableUpdate, if_neg h0] at he'
      rcases List.mem_cons.mp he' with he' | he'
      · subst he'; exact h ⟨k', v⟩ (List.mem_cons_self _ _)
      · exact ih (fun e₀ h₀ => h e₀ (List.mem_cons_of_mem _ h₀)) e' he'

theorem tableWF_init (t : CoverageTable) (k : String)
    (h : tableWF t) : tableWF (tableInit t k) := by
  unfold tableInit
  by_cases hm : tableMem t k = true
  · simpa [hm]
  · simp only [hm, if_false, Bool.false_eq_true]
    intro e he
    rcases List.mem_append.mp he with he | he
    · exact h e he
    · simp at he; subst he; simp

/-! ## Helper lemmas: one-line case reductions -/

theorem lineStep_sf (relpath : String → Option String) (st : ParseState) (raw : Line)
    (rest : Line) (h : pyStrip raw = 'S' :: 'F' :: ':' :: rest) :
    lineStep relpath st raw =
      .ok ⟨tableInit st.coverage (normalizeSF relpath ⟨rest⟩),
           some (normalizeSF relpath ⟨rest⟩)⟩ := by
  unfold lineStep
  rw [h]
  simp [sfP]

theorem lineStep_skip (relpath : String → Option String) (st : ParseState) (raw : Line)
    (h1 : sfP (pyStrip raw) = false)
    (h2 : (daP (pyStrip raw) && truthy st.current) = false) :
    lineStep relpath st raw = .ok st := by
  unfold lineStep
  simp [h1, h2]

theorem lineStep_da_short (relpath : String → Option String) (st : ParseState)
    (raw body p0 : Line) (cf : String)
    (h : pyStrip raw = 'D' :: 'A' :: ':' :: body)
    (hcf : st.current = some cf) (hne : cf ≠ "")
    (hs : splitComma body = [p0]) :
    lineStep relpath st raw = .ok st := by
  unfold lineStep
  rw [h, hcf]
  simp [sfP, daP, truthy, hne, hs,
        show List.drop 3 ('D' :: 'A' :: ':' :: body) = body from rfl]

theorem lineStep_da_err (relpath : String → Option String) (st : ParseState)
    (raw body p0 p1 : Line) (ps : List Line) (cf : String)
    (h : pyStrip raw = 'D' :: 'A' :: ':' :: body)
    (hcf : st.current = some cf) (hne : cf ≠ "")
    (hs : splitComma body = p0 :: p1 :: ps)
    (hint : pyInt? p1 = none) :
    lineStep relpath st raw = .error .valueError := by
  unfold lineStep
  rw [h, hcf]
  simp [sfP, daP, truthy, hne, hs, hint,
        show List.drop 3 ('D' :: 'A' :: ':' :: body) = body from rfl]

theorem lineStep_da_upd (relpath : String → Option String) (st : ParseState)
    (raw body p0 p1 : Line) (ps : List Line) (cf : String) (count : Int)
    (h : pyStrip raw = 'D' :: 'A' :: ':' :: body)
    (hcf : st.current = some cf) (hne : cf ≠ "")
    (hs : splitComma body = p0 :: p1 :: ps)
    (hint : pyInt? p1 = some count) :
    lineStep relpath st raw =
      .ok ⟨tableUpdate st.coverage cf
             (fun r => ⟨r.total + 1,
                        if 0 < count then r.covered + 1 else r.covered⟩),
           st.current⟩ := by
  unfold lineStep
  rw [h, hcf]
  simp [sfP, daP, truthy, hne, hs, hint,
        show List.drop 3 ('D' :: 'A' :: ':' :: body) = body from rfl]

theorem specCount_sf (relpath : String → Option String) (k : String) (cur : Option String)
    (raw : Line) (ls : List Line) (rest : Line)
    (h : pyStrip raw = 'S' :: 'F' :: ':' :: rest) :
    specCount relpath k cur (raw :: ls) =
      specCount relpath k (some (normalizeSF relpath ⟨rest⟩)) ls := by
  conv_lhs => unfold specCount
  rw [h]
  simp [sfP, show List.drop 3 ('S' :: 'F' :: ':' :: rest) = rest from rfl]

theorem specCount_skip (relpath : String → Option String) (k : String) (cur : Option String)
    (raw : Line) (ls : List Line)
    (h1 : sfP (pyStrip raw) = false)
    (h2 : (daP (pyStrip raw) && truthy cur) = false) :
    specCount relpath k cur (raw :: ls) = specCount relpath k cur ls := by
  conv_lhs => unfold specCount
  simp [h1, h2]

theorem specCount_da_short (relpath : String → Option String) (k cf : String)
    (raw body p0 : Line) (ls : List Line)
    (h : pyStrip raw = 'D' :: 'A' :: ':' :: body) (hne : cf ≠ "")
    (hs : splitComma body = [p0]) :
    specCount relpath k (some cf) (raw :: ls) = specCount relpath k (some cf) ls := by
  conv_lhs => unfold specCount
  rw [h]
  simp [sfP, daP, truthy, hne, hs,
        show List.drop 3 ('D' :: 'A' :: ':' :: body) = body from rfl]

theorem specCount_da_none (relpath : String → Option String) (k cf : String)
    (raw body p0 p1 : Line) (ps : List Line) (ls : List Line)
    (h : pyStrip raw = 'D' :: 'A' :: ':' :: body) (hne : cf ≠ "")
    (hs : splitComma body = p0 :: p1 :: ps)
    (hint : pyInt? p1 = none) :
    specCount relpath k (some cf) (raw :: ls) = specCount relpath k (some cf) ls := by
  conv_lhs => unfold specCount
  rw [h]
  simp [sfP, daP, truthy, hne, hs, hint,
        show List.drop 3 ('D' :: 'A' :: ':' :: body) = body from rfl]

theorem specCount_da_some (relpath : String → Option String) (k cf : String)
    (raw body p0 p1 : Line) (ps : List Line) (ls : List Line) (c : Int)
    (h : pyStrip raw = 'D' :: 'A' :: ':' :: body) (hne : cf ≠ "")
    (hs : splitComma body = p0 :: p1 :: ps)
    (hint : pyInt? p1 = some c) :
    specCount relpath k (some cf) (raw :: ls) =
      (if cf = k then
        ⟨(specCount relpath k (some cf) ls).total + 1,
         (specCount relpath k (some cf) ls).covered + (if 0 < c then 1 else 0)⟩
       else specCount relpath k (some cf) ls) := by
  conv_lhs => unfold specCount
  rw [h]
  simp [sfP, daP, truthy, hne, hs, hint,
        show List.drop 3 ('D' :: 'A' :: ':' :: body) = body from rfl]

theorem sfKeys_cons_sf (relpath : String → Option String) (raw : Line) (ls : List Line)
    (rest : Line) (h : pyStrip raw = 'S' :: 'F' :: ':' :: rest) :
    sfKeys relpath (raw :: ls) = normalizeSF relpath ⟨rest⟩ :: sfKeys relpath ls := by
  unfold sfKeys
  rw [List.filterMap_cons]
  rw [h]
  simp [sfP]

theorem sfKeys_cons_not (relpath : String → Option String) (raw : Line) (ls : List Line)
    (h : sfP (pyStrip raw) = false) :
    sfKeys relpath (raw :: ls) = sfKeys relpath ls := by
  unfold sfKeys
  rw [List.filterMap_cons]
  simp [h]

theorem addStats_zero (a : CovStats) : addStats a ⟨0, 0⟩ = a := by
  simp [addStats]

theorem zero_addStats (a : CovStats) : addStats ⟨0, 0⟩ a = a := by
  simp [addStats]

/-! ## Helper lemmas: shapes and step case analysis -/

theorem sfP_shape (l : Line) (h : sfP l = true) : ∃ rest, l = 'S' :: 'F' :: ':' :: rest := by
  unfold sfP at h
  split at h
  · next rest => exact ⟨rest, rfl⟩
  · exact absurd h (by simp)

theorem daP_shape (l : Line) (h : daP l = true) : ∃ rest, l = 'D' :: 'A' :: ':' :: rest := by
  unfold daP at h
  split at h
  · next rest => exact ⟨rest, rfl⟩
  · exact absurd h (by simp)

theorem truthy_shape (cur : Option String) (h : truthy cur = true) :
    ∃ cf, cur = some cf ∧ cf ≠ "" := by
  cases cur with
  | none => simp [truthy] at h
  | some s => exact ⟨s, rfl, by simpa [truthy] using h⟩

theorem splitComma_ne_nil (l : Line) : splitComma l ≠ [] := by
  cases l with
  | nil => simp [splitComma]
  | cons c rest =>
    unfold splitComma
    cases h : splitComma rest with
    | nil => simp
    | cons p ps => by_cases hc : c = ',' <;> simp [hc]

theorem specCount_nil (relpath : String → Option String) (k : String) (cur : Option String) :
    specCount relpath k cur [] = ⟨0, 0⟩ := rfl

theorem sfKeys_nil (relpath : String → Option String) : sfKeys relpath [] = [] := rfl

theorem parseFold_cons_ok (relpath : String → Option String) (st st' : ParseState)
    (raw : Line) (ls : List Line)
    (h : parseFold relpath (raw :: ls) st = .ok st') :
    ∃ st1, lineStep relpath st raw = .ok st1 ∧ parseFold relpath ls st1 = .ok st' := by
  unfold parseFold at h
  cases he : lineStep relpath st raw with
  | ok st1 => rw [he] at h; exact ⟨st1, rfl, h⟩
  | error e => rw [he] at h; simp at h

/-- Every successful step either leaves the state unchanged, handles an
`SF:` line, or handles a counted `DA:` line. -/
theorem lineStep_cases (relpath : String → Option String) (st st' : ParseState) (raw : Line)
    (h : lineStep relpath st raw = .ok st') :
    st' = st ∨
    (∃ rest, pyStrip raw = 'S' :: 'F' :: ':' :: rest ∧
       st' = ⟨tableInit st.coverage (normalizeSF relpath ⟨rest⟩),
              some (normalizeSF relpath ⟨rest⟩)⟩) ∨
    (∃ (cf : String) (count : Int), st.current = some cf ∧
       st' = ⟨tableUpdate st.coverage cf
                (fun r => ⟨r.total + 1,
                           if 0 < count then r.covered + 1 else r.covered⟩),
              st.current⟩) := by
  by_cases hsf : sfP (pyStrip raw) = true
  · obtain ⟨rest, hL⟩ := sfP_shape _ hsf
    rw [lineStep_sf relpath st raw rest hL] at h
    injection h with h
    exact Or.inr (Or.inl ⟨rest, hL, h.symm⟩)
  · by_cases hda : (daP (pyStrip raw) && truthy st.current) = true
    · rw [Bool.and_eq_true] at hda
      obtain ⟨hdaT, htr⟩ := hda
      obtain ⟨body, hL⟩ := daP_shape _ hdaT
      obtain ⟨cf, hcf, hne⟩ := truthy_shape _ htr
      rcases hs : splitComma body with _ | ⟨p0, _ | ⟨p1, ps⟩⟩
      · exact absurd hs (splitComma_ne_nil body)
      · rw [lineStep_da_short relpath st raw body p0 cf hL hcf hne hs] at h
        injection h with h
        exact Or.inl h.symm
      · cases hint : pyInt? p1 with
        | none =>
          rw [lineStep_da_err relpath st raw body p0 p1 ps cf hL hcf hne hs hint] at h
          simp at h
        | some count =>
          rw [lineStep_da_upd relpath st raw body p0 p1 ps cf count hL hcf hne hs hint] at h
          injection h with h
          exact Or.inr (Or.inr ⟨cf, count, hcf, h.symm⟩)
    · have hsf' : sfP (pyStrip raw) = false := by simpa using hsf
      have hda' : (daP (pyStrip raw) && truthy st.current) = false := by simpa using hda
      rw [lineStep_skip relpath st raw hsf' hda'] at h
      injection h with h
      exact Or.inl h.symm

/-! ## Helper lemmas: invariant preservation -/

theorem lineStep_curOK (relpath : String → Option String) (st st' : ParseState) (raw : Line)
    (hC : curOK st) (h : lineStep relpath st raw = .ok st') : curOK st' := by
  rcases lineStep_cases relpath st st' raw h with rfl | ⟨rest, hL, rfl⟩ | ⟨cf, count, hcf, rfl⟩
  · exact hC
  · intro c0 hc0
    injection hc0 with hc0
    subst hc0
    simp [tableGet?_init_self]
  · intro c0 hc0
    simp only at hc0
    have h0 := hC c0 hc0
    by_cases he : c0 = cf
    · subst he
      rw [tableGet?_update_self]
      cases hG : tableGet? st.coverage c0 with
      | none => rw [hG] at h0; simp at h0
      | some r => simp
    · rw [tableGet?_update_ne _ _ _ _ he]
      exact h0

theorem lineStep_nodup (relpath : String → Option String) (st st' : ParseState) (raw : Line)
    (hN : (st.coverage.map Prod.fst).Nodup) (h : lineStep relpath st raw = .ok st') :
    (st'.coverage.map Prod.fst).Nodup := by
  rcases lineStep_cases relpath st st' raw h with rfl | ⟨rest, hL, rfl⟩ | ⟨cf, count, hcf, rfl⟩
  · exact hN
  · exact keys_nodup_init _ _ hN
  · simpa [keys_update] using hN

theorem lineStep_WF (relpath : String → Option String) (st st' : ParseState) (raw : Line)
    (hW : tableWF st.coverage) (h : lineStep relpath st raw = .ok st') :
    tableWF st'.coverage := by
  rcases lineStep_cases relpath st st' raw h with rfl | ⟨rest, hL, rfl⟩ | ⟨cf, count, hcf, rfl⟩
  · exact hW
  · exact tableWF_init _ _ hW
  · refine tableWF_update _ _ _ ?_ hW
    intro r hr
    by_cases hc : 0 < count <;> simp [hc] <;> omega

theorem parseFold_WF (relpath : String → Option String) :
    ∀ (ls : List Line) (st st' : ParseState), tableWF st.coverage →
      parseFold relpath ls st = .ok st' → tableWF st'.coverage := by
  intro ls
  induction ls with
  | nil =>
    intro st st' hW h
    injection h with h
    exact h ▸ hW
  | cons raw ls ih =>
    intro st st' hW h
    obtain ⟨st1, h1, h2⟩ := parseFold_cons_ok relpath st st' raw ls h
    exact ih st1 st' (lineStep_WF relpath st st1 raw hW h1) h2

theorem parseFold_nodup (relpath : String → Option String) :
    ∀ (ls : List Line) (st st' : ParseState), (st.coverage.map Prod.fst).Nodup →
      parseFold relpath ls st = .ok st' → (st'.coverage.map Prod.fst).Nodup := by
  intro ls
  induction ls with
  | nil =>
    intro st st' hN h
    injection h with h
    exact h ▸ hN
  | cons raw ls ih =>
    intro st st' hN h
    obtain ⟨st1, h1, h2⟩ := parseFold_cons_ok relpath st st' raw ls h
    exact ih st1 st' (lineStep_nodup relpath st st1 raw hN h1) h2

/-- The workhorse refinement: after a successful run of the loop over
`ls`, the record at any key `k` is the record at `k` before the run plus
the `DA:` contributions the input attributes to `k`; a key absent before
the run is present afterwards exactly when some `SF:` line introduces
it. -/
theorem parseFold_lookup (relpath : String → Option String) :
    ∀ (ls : List Line) (st st' : ParseState), curOK st →
      parseFold relpath ls st = .ok st' →
      ∀ k, tableGet? st'.coverage k =
        (match tableGet? st.coverage k with
         | some r => some (addStats r (specCount relpath k st.current ls))
         | none =>
           if k ∈ sfKeys relpath ls then some (specCount relpath k st.current ls)
           else none) := by
  intro ls
  induction ls with
  | nil =>
    intro st st' hC h k
    injection h with h
    subst h
    rw [specCount_nil, sfKeys_nil]
    cases hG : tableGet? st.coverage k <;> simp [hG, addStats_zero]
  | cons raw ls ih =>
    intro st st' hC h k
    obtain ⟨st1, h1, h2⟩ := parseFold_cons_ok relpath st st' raw ls h
    by_cases hsf : sfP (pyStrip raw) = true
    · obtain ⟨restL, hL⟩ := sfP_shape _ hsf
      rw [lineStep_sf relpath st raw restL hL] at h1
      injection h1 with h1
      subst h1
      have hC1 : curOK ⟨tableInit st.coverage (normalizeSF relpath ⟨restL⟩),
                        some (normalizeSF relpath ⟨restL⟩)⟩ := by
        intro c0 hc0
        injection hc0 with hc0
        subst hc0
        simp [tableGet?_init_self]
      have hx := ih _ _ hC1 h2 k
      rw [hx]
      rw [specCount_sf relpath k st.current raw ls restL hL,
          sfKeys_cons_sf relpath raw ls restL hL]
      by_cases hkK : k = normalizeSF relpath ⟨restL⟩
      · cases hG : tableGet? st.coverage k with
        | some r =>
          rw [hkK] at hG ⊢
          rw [tableGet?_init_self, hG]
          simp [hG]
        | none =>
          rw [hkK] at hG ⊢
          rw [tableGet?_init_self, hG]
          simp [hG, zero_addStats]
      · rw [show (⟨tableInit st.coverage (normalizeSF relpath ⟨restL⟩),
                   some (normalizeSF relpath ⟨restL⟩)⟩ : ParseState).coverage
              = tableInit st.coverage (normalizeSF relpath ⟨restL⟩) from rfl,
            tableGet?_init_ne _ _ _ hkK]
        cases hG : tableGet? st.coverage k with
        | some r => simp [hG]
        | none => simp [hG, hkK]
    · by_cases hda : (daP (pyStrip raw) && truthy st.current) = true
      · rw [Bool.and_eq_true] at hda
        obtain ⟨hdaT, htr⟩ := hda
        obtain ⟨body, hL⟩ := daP_shape _ hdaT
        obtain ⟨cf, hcf, hne⟩ := truthy_shape _ htr
        have hsf' : sfP (pyStrip raw) = false := by simpa using hsf
        rcases hs : splitComma body with _ | ⟨p0, _ | ⟨p1, ps⟩⟩
        · exact absurd hs (splitComma_ne_nil body)
        · rw [lineStep_da_short relpath st raw body p0 cf hL hcf hne hs] at h1
          injection h1 with h1
          subst h1
          have hx := ih _ _ hC h2 k
          rw [hx, sfKeys_cons_not relpath raw ls hsf', hcf,
              specCount_da_short relpath k cf raw body p0 ls hL hne hs]
        · cases hint : pyInt? p1 with
          | none =>
            rw [lineStep_da_err relpath st raw body p0 p1 ps cf hL hcf hne hs hint] at h1
            simp at h1
          | some c =>
            rw [lineStep_da_upd relpath st raw body p0 p1 ps cf c hL hcf hne hs hint] at h1
            injection h1 with h1
            subst h1
            have hC1 : curOK ⟨tableUpdate st.coverage cf
                                (fun r => ⟨r.total + 1,
                                           if 0 < c then r.covered + 1 else r.covered⟩),
                              st.current⟩ := by
              intro c0 hc0
              simp only at hc0
              have h0 := hC c0 hc0
              by_cases he : c0 = cf
              · subst he
                rw [tableGet?_update_self]
                cases hG : tableGet? st.coverage c0 with
                | none => rw [hG] at h0; simp at h0
                | some r => simp
              · rw [tableGet?_update_ne _ _ _ _ he]
                exact h0
            have hx := ih _ _ hC1 h2 k
            rw [hx]
            rw [sfKeys_cons_not relpath raw ls hsf', hcf,
                specCount_da_some relpath k cf raw body p0 p1 ps ls c hL hne hs hint]
            by_cases hkcf : k = cf
            · rw [hkcf]
              have hPresent := hC cf hcf
              obtain ⟨r, hG⟩ := Option.isSome_iff_exists.mp hPresent
              rw [show (⟨tableUpdate st.coverage cf
                           (fun r => ⟨r.total + 1,
                                      if 0 < c then r.covered + 1 else r.covered⟩),
                         st.current⟩ : ParseState).coverage
                    = tableUpdate st.coverage cf
                        (fun r => ⟨r.total + 1,
                                   if 0 < c then r.covered + 1 else r.covered⟩) from rfl,
                  tableGet?_update_self, hG]
              simp [addStats]
              by_cases h0c : 0 < c <;> simp [h0c] <;> omega
            · rw [show (⟨tableUpdate st.coverage cf
                           (fun r => ⟨r.total + 1,
                                      if 0 < c then r.covered + 1 else r.covered⟩),
                         st.current⟩ : ParseState).coverage
                    = tableUpdate st.coverage cf
                        (fun r => ⟨r.total + 1,
                                   if 0 < c then r.covered + 1 else r.covered⟩) from rfl,
                  tableGet?_update_ne _ _ _ _ hkcf]
              simp [Ne.symm hkcf]
      · have hsf' : sfP (pyStrip raw) = false := by simpa using hsf
        have hda' : (daP (pyStrip raw) && truthy st.current) = false := by simpa using hda
        rw [lineStep_skip relpath st raw hsf' hda'] at h1
        injection h1 with h1
        subst h1
        have hx := ih _ _ hC h2 k
        rw [hx, sfKeys_cons_not relpath raw ls hsf',
            specCount_skip relpath k st.current raw ls hsf' hda']

/-! ## Helper lemmas: run-level facts and the report -/

theorem curOK_empty : curOK ⟨[], none⟩ := by
  intro cf h
  exact Option.noConfusion h

theorem tableWF_empty : tableWF ([] : CoverageTable) := by
  intro e he
  simp at he

theorem parseLines_ok (relpath : String → Option String) (lines : List Line)
    (t : CoverageTable) (h : parseLines relpath lines = .ok t) :
    ∃ st', parseFold relpath lines ⟨[], none⟩ = .ok st' ∧ st'.coverage = t := by
  unfold parseLines at h
  cases he : parseFold relpath lines ⟨[], none⟩ with
  | ok st' => rw [he] at h; injection h with h; exact ⟨st', rfl, h⟩
  | error e => rw [he] at h; simp at h

theorem lineStep_falsy (relpath : String → Option String) (st : ParseState) (raw : Line)
    (hc : truthy st.current = false) (h : sfP (pyStrip raw) = false) :
    lineStep relpath st raw = .ok st :=
  lineStep_skip relpath st raw h (by simp [hc])

theorem parseFold_falsy (relpath : String → Option String) :
    ∀ (ls : List Line) (st : ParseState), truthy st.current = false →
      (∀ l ∈ ls, sfP (pyStrip l) = false) →
      parseFold relpath ls st = .ok st := by
  intro ls
  induction ls with
  | nil => intro st _ _; rfl
  | cons raw ls ih =>
    intro st hc hall
    have h1 : lineStep relpath st raw = .ok st :=
      lineStep_falsy relpath st raw hc (hall raw (List.mem_cons_self _ _))
    unfold parseFold
    rw [h1]
    exact ih st hc (fun l hl => hall l (List.mem_cons_of_mem _ hl))

theorem rowOf_file (t : CoverageTable) (k : String) : (rowOf t k).file = k := by
  unfold rowOf
  cases tableGet? t k <;> rfl

theorem reportRows_files (t : CoverageTable) :
    (reportRows t).map Row.file = sortedKeys t := by
  unfold reportRows
  simp only [List.map_map]
  have h : Row.file ∘ rowOf t = id := funext fun k => rowOf_file t k
  rw [h, List.map_id]

theorem map_rowOf_keys (t : CoverageTable) (hN : (t.map Prod.fst).Nodup) :
    (t.map Prod.fst).map (rowOf t) = t.map entryRow := by
  induction t with
  | nil => rfl
  | cons e rest ih =>
    obtain ⟨k, v⟩ := e
    simp only [List.map_cons] at hN ⊢
    rw [List.nodup_cons] at hN
    obtain ⟨hk, hN'⟩ := hN
    congr 1
    · unfold rowOf entryRow
      simp [tableGet?]
    · have hcongr : ∀ k' ∈ rest.map Prod.fst, rowOf ((k, v) :: rest) k' = rowOf rest k' := by
        intro k' hk'
        have hne : k ≠ k' := fun he => hk (he ▸ hk')
        unfold rowOf
        simp [tableGet?, hne]
      rw [List.map_congr_left hcongr, ih hN']

theorem reportRows_perm (t : CoverageTable) (hN : (t.map Prod.fst).Nodup) :
    (reportRows t).Perm (t.map entryRow) := by
  unfold reportRows
  have h1 : (sortedKeys t).Perm (t.map Prod.fst) := List.perm_insertionSort _ _
  calc ((sortedKeys t).map (rowOf t)).Perm ((t.map Prod.fst).map (rowOf t)) :=
         h1.map (rowOf t)
    _ = t.map entryRow := map_rowOf_keys t hN

/-! ## The claims -/

/-- C1, counterexample: the claim "parse_lcov never raises an error on
malformed individual data lines" is false.  With a current-file context
active, the line `DA:1,x` has two comma-separated fields but a
non-integer execution count; `int(parts[1])` at line 26 raises an
uncaught `ValueError`, so `parse_lcov` terminates with an exception
instead of skipping the line. -/
theorem c1_malformed_da_raises :
    parse_lcov (fun _ => none) "cov.info"
      (.opened [['S','F',':','a'], ['D','A',':','1',',','x']]) =
    .raised "ValueError: invalid literal for int() with base 10" := by decide

/-- C1, amended: a `DA:` line whose remainder has fewer than two
comma-separated fields is skipped silently in every state (never an
error); but a `DA:` line with at least two fields whose second field is
not a valid integer literal, processed while a current-file context is
active, raises an uncaught `ValueError`. -/
theorem c1_short_skipped_bad_int_raises :
    (∀ (relpath : String → Option String) (st : ParseState) (raw body p0 : Line),
        pyStrip raw = 'D' :: 'A' :: ':' :: body →
        splitComma body = [p0] →
        lineStep relpath st raw = .ok st) ∧
    (∀ (relpath : String → Option String) (st : ParseState) (raw body p0 p1 : Line)
        (ps : List Line) (cf : String),
        pyStrip raw = 'D' :: 'A' :: ':' :: body →
        st.current = some cf → cf ≠ "" →
        splitComma body = p0 :: p1 :: ps →
        pyInt? p1 = none →
        lineStep relpath st raw = .error .valueError) := by
  constructor
  · intro relpath st raw body p0 h hs
    have hsf' : sfP (pyStrip raw) = false := by rw [h]; rfl
    cases htr : truthy st.current with
    | false => exact lineStep_skip relpath st raw hsf' (by simp [htr])
    | true =>
      obtain ⟨cf, hcf, hne⟩ := truthy_shape _ htr
      exact lineStep_da_short relpath st raw body p0 cf h hcf hne hs
  · intro relpath st raw body p0 p1 ps cf h hcf hne hs hint
    exact lineStep_da_err relpath st raw body p0 p1 ps cf h hcf hne hs hint

/-- Witness for the amended C1 at concrete inputs: `DA:5` is skipped,
`DA:1,x` raises. -/
theorem c1_witness :
    lineStep (fun _ => none) ⟨[], none⟩ ['D','A',':','5'] = .ok ⟨[], none⟩ ∧
    lineStep (fun _ => none) ⟨[("a", ⟨1, 0⟩)], some "a"⟩ ['D','A',':','1',',','x'] =
      .error .valueError := by
  constructor
  · exact c1_short_skipped_bad_int_raises.1 (fun _ => none) ⟨[], none⟩
      ['D','A',':','5'] ['5'] ['5'] (by decide) (by decide)
  · exact c1_short_skipped_bad_int_raises.2 (fun _ => none) ⟨[("a", ⟨1, 0⟩)], some "a"⟩
      ['D','A',':','1',',','x'] ['1',',','x'] ['1'] ['x'] [] "a"
      (by decide) rfl (by decide) (by decide) (by decide)

/-- C2: if the input file cannot be opened — `FileNotFoundError` (caught
at line 30 and turned into the explicit message and `sys.exit(1)`) or
any other open failure such as `PermissionError` (uncaught, terminating
the process with a traceback) — the process ends with a non-zero status,
an error message naming the path, and no report is printed. -/
theorem c2_open_failure_exits_nonzero :
    ∀ (relpath : String → Option String) (p : String) (r : OpenResult),
      (r = .notFound ∨ r = .accessError) →
      (mainRun relpath p r).status = 1 ∧
      (mainRun relpath p r).report = none ∧
      ∃ pre post, (mainRun relpath p r).errText = pre ++ p ++ post := by
  intro relpath p r h
  rcases h with rfl | rfl
  · exact ⟨rfl, rfl, "Error: File ", " not found.", rfl⟩
  · exact ⟨rfl, rfl, "PermissionError: [Errno 13] Permission denied: '", "'", rfl⟩

/-- Witness for C2 at a concrete missing file. -/
theorem c2_witness :
    (mainRun (fun _ => none) "cov.info" .notFound).status = 1 ∧
    (mainRun (fun _ => none) "cov.info" .notFound).report = none ∧
    ∃ pre post, (mainRun (fun _ => none) "cov.info" .notFound).errText =
      pre ++ "cov.info" ++ post :=
  c2_open_failure_exits_nonzero (fun _ => none) "cov.info" .notFound (Or.inl rfl)

/-- C3: every record satisfies `covered ≤ total` (the counts are
naturals in the model, so `0 ≤ covered` holds by construction): the
invariant is preserved by every single successful loop step — a counted
`DA:` line adds 1 to `total` and at most 1 to `covered` in the same
step — and therefore holds for every record of every successfully parsed
table. -/
theorem c3_covered_le_total :
    (∀ (relpath : String → Option String) (st st' : ParseState) (raw : Line),
        tableWF st.coverage → lineStep relpath st raw = .ok st' →
        tableWF st'.coverage) ∧
    (∀ (relpath : String → Option String) (lines : List Line) (t : CoverageTable),
        parseLines relpath lines = .ok t → tableWF t) := by
  constructor
  · exact fun relpath st st' raw => lineStep_WF relpath st st' raw
  · intro relpath lines t h
    obtain ⟨st', hf, he⟩ := parseLines_ok relpath lines t h
    exact he ▸ parseFold_WF relpath lines ⟨[], none⟩ st' tableWF_empty hf

/-- Witness for C3: the table parsed from a concrete input is
well-formed. -/
theorem c3_witness : tableWF [("a", ⟨2, 1⟩)] :=
  c3_covered_le_total.2 (fun _ => none)
    [['S','F',':','a'], ['D','A',':','1',',','4'], ['D','A',':','2',',','0']]
    [("a", ⟨2, 1⟩)] rfl

/-- C4: a `DA:` line with at least two comma-separated fields and a
parsed execution count, processed while a current-file context is
active, increments the current file's `total` by exactly 1 and its
`covered` by exactly 1 iff the count is positive, leaving every other
entry and the context unchanged; a `DA:` line with no current-file
context is ignored, and an input containing no `SF:` line at all leaves
the table empty. -/
theorem c4_da_update_semantics :
    (∀ (relpath : String → Option String) (st : ParseState) (raw body p0 p1 : Line)
        (ps : List Line) (cf : String) (count : Int) (r : CovStats),
        pyStrip raw = 'D' :: 'A' :: ':' :: body →
        st.current = some cf → cf ≠ "" →
        splitComma body = p0 :: p1 :: ps →
        pyInt? p1 = some count →
        tableGet? st.coverage cf = some r →
        ∃ st', lineStep relpath st raw = .ok st' ∧
          st'.current = st.current ∧
          tableGet? st'.coverage cf =
            some ⟨r.total + 1, r.covered + (if 0 < count then 1 else 0)⟩ ∧
          ∀ k, k ≠ cf → tableGet? st'.coverage k = tableGet? st.coverage k) ∧
    (∀ (relpath : String → Option String) (st : ParseState) (raw body : Line),
        pyStrip raw = 'D' :: 'A' :: ':' :: body →
        st.current = none →
        lineStep relpath st raw = .ok st) ∧
    (∀ (relpath : String → Option String) (lines : List Line),
        (∀ l ∈ lines, sfP (pyStrip l) = false) →
        parseFold relpath lines ⟨[], none⟩ = .ok ⟨[], none⟩) := by
  refine ⟨?_, ?_, ?_⟩
  · intro relpath st raw body p0 p1 ps cf count r h hcf hne hs hint hr
    refine ⟨_, lineStep_da_upd relpath st raw body p0 p1 ps cf count h hcf hne hs hint,
            rfl, ?_, ?_⟩
    · rw [show (⟨tableUpdate st.coverage cf
                  (fun r => ⟨r.total + 1,
                             if 0 < count then r.covered + 1 else r.covered⟩),
                st.current⟩ : ParseState).coverage
            = tableUpdate st.coverage cf
                (fun r => ⟨r.total + 1,
                           if 0 < count then r.covered + 1 else r.covered⟩) from rfl,
          tableGet?_update_self, hr]
      by_cases h0 : 0 < count <;> simp [h0]
    · intro k hk
      exact tableGet?_update_ne _ _ _ _ hk
  · intro relpath st raw body h hcur
    have hsf' : sfP (pyStrip raw) = false := by rw [h]; rfl
    exact lineStep_falsy relpath st raw (by rw [hcur]; rfl) hsf'
  · intro relpath lines h
    exact parseFold_falsy relpath lines ⟨[], none⟩ rfl h

/-- Witness for C4 at a concrete update and a concrete SF-free input. -/
theorem c4_witness :
    (∃ st', lineStep (fun _ => none) ⟨[("a", ⟨1, 0⟩)], some "a"⟩ ['D','A',':','2',',','7'] =
        .ok st' ∧
      st'.current = (⟨[("a", ⟨1, 0⟩)], some "a"⟩ : ParseState).current ∧
      tableGet? st'.coverage "a" =
        some ⟨(⟨1, 0⟩ : CovStats).total + 1,
              (⟨1, 0⟩ : CovStats).covered + (if (0 : Int) < 7 then 1 else 0)⟩ ∧
      ∀ k, k ≠ "a" → tableGet? st'.coverage k = tableGet? [("a", ⟨1, 0⟩)] k) ∧
    parseFold (fun _ => none) [['D','A',':','1',',','5']] ⟨[], none⟩ = .ok ⟨[], none⟩ := by
  constructor
  · exact c4_da_update_semantics.1 (fun _ => none) ⟨[("a", ⟨1, 0⟩)], some "a"⟩
      ['D','A',':','2',',','7'] ['2',',','7'] ['2'] ['7'] [] "a" 7 ⟨1, 0⟩
      (by decide) rfl (by decide) (by decide) (by decide) (by decide)
  · refine c4_da_update_semantics.2.2 (fun _ => none) [['D','A',':','1',',','5']] ?_
    intro l hl
    rw [List.mem_singleton] at hl
    subst hl
    decide

/-- C5: on any successfully parsed input, the table has at most one
entry per path (keys are nodup), and the entry at any key `k` is exactly
the accumulated count of all `DA:` lines the whole input attributes to
`k` — so two or more `SF:` sections with the same normalized path share
one entry whose counts are the sums over all those sections, and a
repeated `SF:` line never resets the counts. -/
theorem c5_duplicate_sf_accumulates :
    ∀ (relpath : String → Option String) (lines : List Line) (t : CoverageTable)
      (k : String),
      parseLines relpath lines = .ok t →
      (t.map Prod.fst).Nodup ∧
      tableGet? t k =
        (if k ∈ sfKeys relpath lines then some (specCount relpath k none lines)
         else none) := by
  intro relpath lines t k h
  obtain ⟨st', hf, he⟩ := parseLines_ok relpath lines t h
  subst he
  constructor
  · exact parseFold_nodup relpath lines ⟨[], none⟩ st' (by simp) hf
  · have h2 := parseFold_lookup relpath lines ⟨[], none⟩ st' curOK_empty hf k
    rw [show tableGet? (⟨[], none⟩ : ParseState).coverage k = none from rfl] at h2
    simpa using h2

/-- Witness for C5: an input with two `SF:a` sections yields a single
`a` entry holding the summed counts. -/
theorem c5_witness :
    (([("a", (⟨2, 2⟩ : CovStats)), ("b", ⟨1, 0⟩)] : CoverageTable).map Prod.fst).Nodup ∧
    tableGet? [("a", ⟨2, 2⟩), ("b", ⟨1, 0⟩)] "a" =
      (if "a" ∈ sfKeys (fun _ => none)
            [['S','F',':','a'], ['D','A',':','1',',','1'], ['S','F',':','b'],
             ['D','A',':','1',',','0'], ['S','F',':','a'], ['D','A',':','2',',','3']]
       then some (specCount (fun _ => none) "a" none
            [['S','F',':','a'], ['D','A',':','1',',','1'], ['S','F',':','b'],
             ['D','A',':','1',',','0'], ['S','F',':','a'], ['D','A',':','2',',','3']])
       else none) :=
  c5_duplicate_sf_accumulates (fun _ => none)
    [['S','F',':','a'], ['D','A',':','1',',','1'], ['S','F',':','b'],
     ['D','A',':','1',',','0'], ['S','F',':','a'], ['D','A',':','2',',','3']]
    [("a", ⟨2, 2⟩), ("b", ⟨1, 0⟩)] "a" rfl

/-- C6: the report's rows are sorted ascending by file path under
`String`'s order — lexicographic comparison of code points, as Python's
`sorted` uses — and are a permutation of the table's keys, so sortedness
holds regardless of the order the `SF:` sections appeared in. -/
theorem c6_rows_sorted :
    ∀ t : CoverageTable,
      List.Sorted (· ≤ ·) ((reportRows t).map Row.file) ∧
      ((reportRows t).map Row.file).Perm (t.map Prod.fst) := by
  intro t
  rw [reportRows_files]
  exact ⟨List.sorted_insertionSort _ _, List.perm_insertionSort _ _⟩

/-- C7: every printed row's percentage is `covered / lines * 100` when
`lines > 0` and exactly `0` when `lines = 0` (the division is guarded,
never performed with a zero denominator), and the TOTAL row carries the
sums of `total` and `covered` over all table entries with the same zero
guard on its aggregate percentage. -/
theorem c7_percent_zero_guard :
    ∀ t : CoverageTable,
      (∀ row ∈ reportRows t,
         (row.lines = 0 → row.percent = 0) ∧
         (0 < row.lines → row.percent = (row.covered : Rat) / (row.lines : Rat) * 100)) ∧
      ((t.map Prod.fst).Nodup →
         (totalRow t).lines = (t.map fun e => e.2.total).sum ∧
         (totalRow t).covered = (t.map fun e => e.2.covered).sum) ∧
      ((totalRow t).lines = 0 → (totalRow t).percent = 0) ∧
      (0 < (totalRow t).lines →
         (totalRow t).percent =
           ((totalRow t).covered : Rat) / ((totalRow t).lines : Rat) * 100) := by
  intro t
  refine ⟨?_, ?_, ?_, ?_⟩
  · intro row hrow
    unfold reportRows at hrow
    obtain ⟨k, hk, rfl⟩ := List.mem_map.mp hrow
    cases hG : tableGet? t k with
    | none =>
      have hrw : rowOf t k = ⟨k, 0, 0, 0⟩ := by unfold rowOf; rw [hG]
      rw [hrw]
      exact ⟨fun _ => rfl, fun h0 => absurd h0 (by simp)⟩
    | some s =>
      have hrw : rowOf t k = ⟨k, s.total, s.covered, percentOf s.covered s.total⟩ := by
        unfold rowOf; rw [hG]
      rw [hrw]
      constructor
      · intro h0
        have h0' : s.total = 0 := h0
        show percentOf s.covered s.total = 0
        simp [percentOf, h0']
      · intro h0
        have h0' : 0 < s.total := h0
        show percentOf s.covered s.total = (s.covered : Rat) / (s.total : Rat) * 100
        simp [percentOf, h0']
  · intro hN
    have hperm := reportRows_perm t hN
    constructor
    · show ((reportRows t).map Row.lines).sum = _
      rw [(hperm.map Row.lines).sum_eq, List.map_map]
      rfl
    · show ((reportRows t).map Row.covered).sum = _
      rw [(hperm.map Row.covered).sum_eq, List.map_map]
      rfl
  · intro h0
    have h0' : ((reportRows t).map Row.lines).sum = 0 := h0
    show percentOf ((reportRows t).map Row.covered).sum ((reportRows t).map Row.lines).sum = 0
    simp [percentOf, h0']
  · intro h0
    have h0' : 0 < ((reportRows t).map Row.lines).sum := h0
    show percentOf ((reportRows t).map Row.covered).sum ((reportRows t).map Row.lines).sum =
      (((reportRows t).map Row.covered).sum : Rat) /
        (((reportRows t).map Row.lines).sum : Rat) * 100
    simp [percentOf, h0']

/-- Witness for C7: the TOTAL sums on a one-file table, and a 0.00%
aggregate for a table with zero instrumented lines. -/
theorem c7_witness :
    (totalRow [("a", ⟨2, 1⟩)]).lines =
      (([("a", (⟨2, 1⟩ : CovStats))] : CoverageTable).map fun e => e.2.total).sum ∧
    (totalRow [("a", ⟨0, 0⟩)]).percent = 0 := by
  constructor
  · exact ((c7_percent_zero_guard [("a", ⟨2, 1⟩)]).2.1 (by decide)).1
  · exact (c7_percent_zero_guard [("a", ⟨0, 0⟩)]).2.2.1 (by decide)

/-- C8: an `SF:` line's extracted path, when absolute, is keyed by the
`relpath` conversion when it succeeds and kept unchanged when the
conversion raises (silently — the step still succeeds); a relative
path is kept as-is. -/
theorem c8_sf_path_normalization :
    ∀ (relpath : String → Option String) (st : ParseState) (raw rest : Line),
      pyStrip raw = 'S' :: 'F' :: ':' :: rest →
      lineStep relpath st raw =
        .ok ⟨tableInit st.coverage (normalizeSF relpath ⟨rest⟩),
             some (normalizeSF relpath ⟨rest⟩)⟩ ∧
      (∀ r, isabs ⟨rest⟩ = true → relpath ⟨rest⟩ = some r →
         normalizeSF relpath ⟨rest⟩ = r) ∧
      (isabs ⟨rest⟩ = true → relpath ⟨rest⟩ = none →
         normalizeSF relpath ⟨rest⟩ = ⟨rest⟩) ∧
      (isabs ⟨rest⟩ = false → normalizeSF relpath ⟨rest⟩ = ⟨rest⟩) := by
  intro relpath st raw rest h
  refine ⟨lineStep_sf relpath st raw rest h, ?_, ?_, ?_⟩
  · intro r habs hrel
    unfold normalizeSF
    simp [habs, hrel]
  · intro habs hrel
    unfold normalizeSF
    simp [habs, hrel]
  · intro habs
    unfold normalizeSF
    simp [habs]

/-- Witness for C8: a successful conversion of an absolute path at a
concrete oracle. -/
theorem c8_witness :
    lineStep (fun _ => some "rel.py") ⟨[], none⟩ ['S','F',':','/','a'] =
      .ok ⟨tableInit [] (normalizeSF (fun _ => some "rel.py") ⟨['/','a']⟩),
           some (normalizeSF (fun _ => some "rel.py") ⟨['/','a']⟩)⟩ ∧
    normalizeSF (fun _ => some "rel.py") ⟨['/','a']⟩ = "rel.py" := by
  have h := c8_sf_path_normalization (fun _ => some "rel.py") ⟨[], none⟩
    ['S','F',':','/','a'] ['/','a'] (by decide)
  exact ⟨h.1, h.2.1 "rel.py" (by decide) rfl⟩

/-- C9: a bare `SF:` line makes the empty string the current file and
creates a `{total := 0, covered := 0}` entry for it if absent; but the
empty string is falsy in Python, so while it is the current file every
subsequent non-`SF:` line — in particular every `DA:` line — leaves the
state untouched, and the empty-string entry's counts stay zero. -/
theorem c9_empty_sf_context :
    (∀ (relpath : String → Option String) (st : ParseState) (raw : Line),
        pyStrip raw = ['S','F',':'] →
        lineStep relpath st raw = .ok ⟨tableInit st.coverage "", some ""⟩) ∧
    (∀ t : CoverageTable, tableGet? t "" = none →
        tableGet? (tableInit t "") "" = some ⟨0, 0⟩) ∧
    (∀ (relpath : String → Option String) (cov : CoverageTable) (raw : Line),
        sfP (pyStrip raw) = false →
        lineStep relpath ⟨cov, some ""⟩ raw = .ok ⟨cov, some ""⟩) ∧
    (∀ (relpath : String → Option String) (cov : CoverageTable) (ls : List Line),
        (∀ l ∈ ls, sfP (pyStrip l) = false) →
        parseFold relpath ls ⟨cov, some ""⟩ = .ok ⟨cov, some ""⟩) := by
  refine ⟨?_, ?_, ?_, ?_⟩
  · intro relpath st raw h
    rw [lineStep_sf relpath st raw [] h]
    rfl
  · intro t h
    rw [tableGet?_init_self, h]
    rfl
  · intro relpath cov raw h
    exact lineStep_falsy relpath ⟨cov, some ""⟩ raw (by simp [truthy]) h
  · intro relpath cov ls h
    exact parseFold_falsy relpath ls ⟨cov, some ""⟩ (by simp [truthy]) h

/-- Witness for C9 at a bare `SF:` line and a subsequent `DA:` line. -/
theorem c9_witness :
    lineStep (fun _ => none) ⟨[], none⟩ ['S','F',':'] = .ok ⟨tableInit [] "", some ""⟩ ∧
    tableGet? (tableInit [] "") "" = some ⟨0, 0⟩ ∧
    parseFold (fun _ => none) [['D','A',':','1',',','9']] ⟨[("", ⟨0, 0⟩)], some ""⟩ =
      .ok ⟨[("", ⟨0, 0⟩)], some ""⟩ := by
  refine ⟨c9_empty_sf_context.1 (fun _ => none) ⟨[], none⟩ ['S','F',':'] (by decide),
          c9_empty_sf_context.2.1 [] (by decide),
          c9_empty_sf_context.2.2.2 (fun _ => none) [("", ⟨0, 0⟩)]
            [['D','A',':','1',',','9']] ?_⟩
  intro l hl
  rw [List.mem_singleton] at hl
  subst hl
  decide

/-- C10: the loop body behaves on any raw line exactly as on its
stripped form (stripping is idempotent, so classification always sees a
whitespace-trimmed line — a marker preceded by whitespace is still
recognized), and the path extracted from an `SF:` line never ends in
whitespace. -/
theorem c10_strip_before_classify :
    (∀ (relpath : String → Option String) (st : ParseState) (raw : Line),
        lineStep relpath st raw = lineStep relpath st (pyStrip raw)) ∧
    (∀ (raw rest : Line) (c : Char),
        pyStrip raw = 'S' :: 'F' :: ':' :: rest →
        rest.getLast? = some c → isPyWhitespace c = false) := by
  constructor
  · intro relpath st raw
    unfold lineStep
    rw [pyStrip_idem]
  · intro raw rest c h hc
    have hrest : rest ≠ [] := by intro he; subst he; simp at hc
    have hlast : (pyStrip raw).getLast? = some c := by
      rw [h]
      obtain ⟨b, l', rfl⟩ := List.exists_cons_of_ne_nil hrest
      rw [List.getLast?_cons_cons, List.getLast?_cons_cons, List.getLast?_cons_cons]
      exact hc
    exact pyStrip_getLast raw c hlast

/-- Witness for C10: a line with a leading blank before its `SF:`
marker, whose extracted path ends in a non-whitespace character. -/
theorem c10_witness :
    lineStep (fun _ => none) ⟨[], none⟩ [' ','S','F',':','a'] =
      lineStep (fun _ => none) ⟨[], none⟩ (pyStrip [' ','S','F',':','a']) ∧
    isPyWhitespace 'a' = false := by
  exact ⟨c10_strip_before_classify.1 (fun _ => none) ⟨[], none⟩ [' ','S','F',':','a'],
         c10_strip_before_classify.2 [' ','S','F',':','a'] ['a'] 'a' (by decide) (by decide)⟩
